import Mathlib

/-!
# Formal model of AgentNet's Q-learning objective and environment pool

Shallow embedding of `agentnet/learning/qlearning.py` and
`agentnet/experiments/openai_gym/pool.py`.

Tensors indexed `[slot, tick, action]` are modelled as curried functions
`ℕ → ℕ → ℕ → ℚ`; tensors `[slot, tick]` as `ℕ → ℕ → ℚ`.  The horizon `H`
(number of ticks) is passed explicitly where the tick axis length matters.
The optional `qvalues_after_end` argument (string `"zeros"` or a
`[batch, 1, n_actions]` tensor in the source) is an `Option (ℕ → ℕ → ℚ)`
(`none` = `"zeros"`, the tensor indexed by slot and action).
The `aggregation_function` reduces the action axis pointwise per
`(slot, tick)`, as the source's contract requires, so it is modelled as a
function on action vectors `(ℕ → ℚ) → ℚ`.
-/

namespace AgentNet

/-- Modelled from the spec: `agentnet.utils.grad.consider_constant` is
imported by `qlearning.py` but its module is not part of the given sources.
Per the spec it is a stop-gradient/detach primitive: it blocks gradient
flow and is the identity on values, which is all the value-level model
can see. -/
def consider_constant {α : Type} (x : α) : α := x

/-- Modelled from the spec: `lasagne.objectives.squared_error`, the
elementwise squared error `(a - b)^2` ("loss = (target - predicted)^2"). -/
def squared_error (a b : ℚ) : ℚ := (a - b) ^ 2

/-- Modelled from the spec: `agentnet.learning.helpers.get_action_Qvalues`
is imported by `qlearning.py` but its module is not part of the given
sources.  Per the spec it is `predicted = gather(Qvalues, actions)`:
select the value of the action actually taken, per `[slot, tick]`. -/
def get_action_Qvalues (Qvalues : ℕ → ℕ → ℕ → ℚ) (actions : ℕ → ℕ → ℕ) :
    ℕ → ℕ → ℚ :=
  fun s t => Qvalues s t (actions s t)

/-- `T.concatenate([Qvalues[:, 1:], qvalues_after_end], axis=1)` from
`get_reference_Qvalues` (qlearning.py lines 45-51): ticks `0 .. H-2` come
from the tick-shifted `Qvalues`, the final tick `H-1` from
`qvalues_after_end`. -/
def next_Qvalues_predicted (H : ℕ) (Qvalues : ℕ → ℕ → ℕ → ℚ)
    (qae : ℕ → ℕ → ℚ) : ℕ → ℕ → ℕ → ℚ :=
  fun s t a => if t < H - 1 then Qvalues s (t + 1) a else qae s a

/-- `get_reference_Qvalues` (qlearning.py lines 13-59).
`actions` is accepted (as in the source signature) but never used.
`gamma_or_gammas` is modelled as a `[slot, tick]` tensor; a scalar
discount is the constant function. -/
def get_reference_Qvalues (H : ℕ) (Qvalues : ℕ → ℕ → ℕ → ℚ)
    (actions : ℕ → ℕ → ℕ) (rewards : ℕ → ℕ → ℚ)
    (gamma_or_gammas : ℕ → ℕ → ℚ)
    (qvalues_after_end : Option (ℕ → ℕ → ℚ))
    (aggregation_function : (ℕ → ℚ) → ℚ) : ℕ → ℕ → ℚ :=
  let qae := qvalues_after_end.getD (fun _ _ => 0)
  let next_Q := next_Qvalues_predicted H Qvalues qae
  let optimal_next_Qvalue : ℕ → ℕ → ℚ :=
    fun s t => aggregation_function (fun a => next_Q s t a)
  fun s t => rewards s t + gamma_or_gammas s t * optimal_next_Qvalue s t

/-- Modelled from the spec: the end-tick location that
`agentnet.learning.helpers.get_end_indicator(is_alive, force_end_at_t_max=True)`
(a module not part of the given sources) computes for each slot.  Per the
spec: "the earliest tick whose immediate successor is dead, or the last
tick of the horizon if no death occurs".  `end_tick_aux alive s t fuel`
scans ticks `t, t+1, ...` (at most `fuel` further steps) for the earliest
tick whose successor is dead. -/
def end_tick_aux (alive : ℕ → ℕ → Bool) (s : ℕ) : ℕ → ℕ → ℕ
  | t, 0 => t
  | t, fuel + 1 => if alive s (t + 1) = false then t else end_tick_aux alive s (t + 1) fuel

/-- Modelled from the spec: per-slot end tick under the "force end at
horizon" policy (see `end_tick_aux`). -/
def end_tick (H : ℕ) (alive : ℕ → ℕ → Bool) (s : ℕ) : ℕ :=
  end_tick_aux alive s 0 (H - 1)

/-- The reference Q-values after the `force_qvalues_after_end` override of
`get_elementwise_objective` (qlearning.py lines 130-146): at each slot's
end tick, the target is replaced by `rewards[end]` when
`qvalues_after_end = "zeros"`, and by
`rewards[end] + gamma * aggregation(qvalues_after_end[slot])` otherwise. -/
def overridden_reference (H : ℕ) (Qvalues : ℕ → ℕ → ℕ → ℚ)
    (actions : ℕ → ℕ → ℕ) (rewards : ℕ → ℕ → ℚ)
    (gamma_or_gammas : ℕ → ℕ → ℚ)
    (qvalues_after_end : Option (ℕ → ℕ → ℚ))
    (aggregation_function : (ℕ → ℚ) → ℚ)
    (alive : ℕ → ℕ → Bool) (force_qvalues_after_end : Bool) : ℕ → ℕ → ℚ :=
  let ref := get_reference_Qvalues H Qvalues actions rewards gamma_or_gammas
    qvalues_after_end aggregation_function
  if force_qvalues_after_end then
    fun s t =>
      if t = end_tick H alive s then
        match qvalues_after_end with
        | none => rewards s t
        | some q =>
            rewards s t + gamma_or_gammas s t * aggregation_function (fun a => q s a)
      else ref s t
  else ref

/-- `get_elementwise_objective` (qlearning.py lines 62-157).
`is_alive = none` models the string default `"always"`;
`Qvalues_target = none` models `None` (use `Qvalues` itself). -/
def get_elementwise_objective (H : ℕ) (Qvalues : ℕ → ℕ → ℕ → ℚ)
    (actions : ℕ → ℕ → ℕ) (rewards : ℕ → ℕ → ℚ)
    (is_alive : Option (ℕ → ℕ → Bool))
    (Qvalues_target : Option (ℕ → ℕ → ℕ → ℚ))
    (gamma_or_gammas : ℕ → ℕ → ℚ)
    (crop_last : Bool) (force_qvalues_after_end : Bool)
    (qvalues_after_end : Option (ℕ → ℕ → ℚ))
    (consider_reference_constant : Bool)
    (aggregation_function : (ℕ → ℚ) → ℚ) : ℕ → ℕ → ℚ :=
  let Qtarget := Qvalues_target.getD Qvalues
  let action_Qvalues := get_action_Qvalues Qvalues actions
  let loss : ℕ → ℕ → ℚ :=
    match is_alive with
    | none =>
        let reference := get_reference_Qvalues H Qtarget actions rewards
          gamma_or_gammas qvalues_after_end aggregation_function
        let reference := if consider_reference_constant
          then consider_constant reference else reference
        fun s t => squared_error (reference s t) (action_Qvalues s t)
    | some alive =>
        let reference := overridden_reference H Qtarget actions rewards
          gamma_or_gammas qvalues_after_end aggregation_function alive
          force_qvalues_after_end
        let reference := if consider_reference_constant
          then consider_constant reference else reference
        fun s t =>
          squared_error (reference s t) (action_Qvalues s t) *
            (if alive s t then 1 else 0)
  if crop_last then fun s t => if t = H - 1 then 0 else loss s t else loss

/-!
## Environment pool (`agentnet/experiments/openai_gym/pool.py`)

One gym environment is modelled as a pure step/reset pair over an opaque
state type `σ`: `step : σ → act → σ × obs × ℚ × Bool × info` mirrors
`env.step(action) -> (observation, reward, terminated, info)` plus the
environment's own (mutated-in-place in the source) state, and
`reset : σ → σ × obs` mirrors `env.reset() -> observation`.  The agent's
one-step applier `agent_step(observations, *memory_states)` is a function
from the batch of previous observations and the per-channel memory
batches to actions and new memory batches.  Batches over slots are
`List`s; per-tick logs are accumulated time-major and transposed at the
end exactly as `interact` does with `np.swapaxes(0, 1)`. -/

/-- External environment collaborator: `reset() -> observation` and
`step(action) -> (observation, reward, terminated, info)`, with the
environment's mutable state made explicit. -/
structure EnvSpec (σ obs act info : Type) where
  stepf : σ → act → σ × obs × ℚ × Bool × info
  resetf : σ → σ × obs

/-- The mutable state of `EnvPool`: `self.envs`, `self.prev_observations`
and `self.prev_memory_states` (one `List M` of per-slot rows per memory
channel). -/
structure PoolState (σ obs M : Type) where
  envs : List σ
  prev_observations : List obs
  prev_memory_states : List (List M)

/-- One tick's tuple appended to `history_log` (pool.py line 100):
`(prev_observations, actions, cur_rewards, new_memory_states, is_done, infos)`. -/
structure TickLog (obs act info M : Type) where
  obsL : List obs
  actsL : List act
  rewardsL : List ℚ
  memL : List (List M)
  doneL : List Bool
  infosL : List info

/-- The per-slot `env.step(action)` results of one tick:
`zip(*map(lambda env, action: env.step(action), self.envs, actions))`
(pool.py lines 80-85), kept as a list of result tuples. -/
def stepResults {σ obs act info : Type} (E : EnvSpec σ obs act info)
    (envs : List σ) (actions : List act) : List (σ × obs × ℚ × Bool × info) :=
  List.zipWith E.stepf envs actions

/-- The post-termination fixup of one slot (pool.py lines 89-97): if the
slot's `is_done` flag is true, its environment is reset and the fresh
reset observation replaces the raw post-termination step observation. -/
def fixSlot {σ obs act info : Type} (E : EnvSpec σ obs act info)
    (r : σ × obs × ℚ × Bool × info) : σ × obs :=
  if r.2.2.2.1 then E.resetf r.1 else (r.1, r.2.1)

/-- Zeroing of one memory channel at terminated slot indices
(`new_memory_states[m_i][i] = 0`, pool.py line 94). -/
def zeroDoneMem {M : Type} (z : M) (doneL : List Bool) (ch : List M) : List M :=
  List.zipWith (fun d m => if d then z else m) doneL ch

/-- One iteration of the `for i in range(n_steps)` loop of
`EnvPool.interact` (pool.py lines 76-103): query the agent, step every
environment, reset terminated slots (fresh observation, zeroed memory
rows), log the tick, and advance the pool state. -/
def interactTick {σ obs act info M : Type} (E : EnvSpec σ obs act info)
    (z : M)
    (agent_step : List obs → List (List M) → List act × List (List M))
    (st : PoolState σ obs M) :
    TickLog obs act info M × PoolState σ obs M :=
  let res := agent_step st.prev_observations st.prev_memory_states
  let actions := res.1
  let new_memory_states := res.2
  let results := stepResults E st.envs actions
  let cur_rewards := results.map (fun r => r.2.2.1)
  let is_done := results.map (fun r => r.2.2.2.1)
  let infos := results.map (fun r => r.2.2.2.2)
  let fixed := results.map (fixSlot E)
  let new_envs := fixed.map Prod.fst
  let new_observations := fixed.map Prod.snd
  let zeroed_memory := new_memory_states.map (zeroDoneMem z is_done)
  (⟨st.prev_observations, actions, cur_rewards, zeroed_memory, is_done, infos⟩,
   ⟨new_envs, new_observations, zeroed_memory⟩)

/-- The whole `for i in range(n_steps)` loop: the list of per-tick logs in
time-major order together with the final pool state. -/
def interactLoop {σ obs act info M : Type} (E : EnvSpec σ obs act info)
    (z : M)
    (agent_step : List obs → List (List M) → List act × List (List M)) :
    ℕ → PoolState σ obs M → List (TickLog obs act info M) × PoolState σ obs M
  | 0, st => ([], st)
  | n + 1, st =>
      let step1 := interactTick E z agent_step st
      let rest := interactLoop E z agent_step n step1.2
      (step1.1 :: rest.1, rest.2)

/-- `np.array(rows).swapaxes(0, 1)` on a time-major `[tick][slot]` stack:
entry `(s, t)` of the result is entry `(t, s)` of the input.  `n` is the
slot count and `dflt` the out-of-range filler (irrelevant on rectangular
data). -/
def transposeL {α : Type} (dflt : α) (n : ℕ) (rows : List (List α)) :
    List (List α) :=
  (List.range n).map (fun s => rows.map (fun row => row.getD s dflt))

/-- The return value of `EnvPool.interact` (pool.py line 125):
`observation_log, action_log, reward_log, memories_log, is_alive_log, info_log`. -/
structure InteractResult (obs act info M : Type) where
  observation_log : List (List obs)
  action_log : List (List act)
  reward_log : List (List ℚ)
  memories_log : List (List (List M))
  is_alive_log : List (List ℤ)
  info_log : List (List info)

/-- `EnvPool.interact(n_steps)` (pool.py lines 59-125): run the
interaction loop, then cast the time-major logs to `[slot, tick, ...]`
tensors via `swapaxes(0, 1)`; `memories_log` is regrouped per channel
(`zip(*memories_log)`) before transposition; `is_alive_log` is
`1 - np.array(is_done_log, dtype='int8')` transposed; `info_log` stays
time-major.  Returns the logs and the final pool state. -/
def interact {σ obs act info M : Type} [Inhabited obs] [Inhabited act]
    [Inhabited info] (E : EnvSpec σ obs act info) (z : M)
    (agent_step : List obs → List (List M) → List act × List (List M))
    (n_steps : ℕ) (st : PoolState σ obs M) :
    InteractResult obs act info M × PoolState σ obs M :=
  let loop := interactLoop E z agent_step n_steps st
  let logs := loop.1
  let n_games := st.envs.length
  let n_channels := (logs.headD ⟨[], [], [], [], [], []⟩).memL.length
  (⟨transposeL default n_games (logs.map TickLog.obsL),
    transposeL default n_games (logs.map TickLog.actsL),
    transposeL 0 n_games (logs.map TickLog.rewardsL),
    (List.range n_channels).map
      (fun c => transposeL z n_games (logs.map (fun lg => lg.memL.getD c []))),
    transposeL 0 n_games
      (logs.map (fun lg => lg.doneL.map (fun d => 1 - (if d then (1 : ℤ) else 0)))),
    logs.map TickLog.infosL⟩,
   loop.2)

/-- Interface contract of the agent's one-step applier for `N` slots and
`C` memory channels (spec section 6): on any input batch it returns `N`
actions and `C` memory channels of `N` rows each. -/
def agentWF {obs act M : Type} (N C : ℕ)
    (agent_step : List obs → List (List M) → List act × List (List M)) : Prop :=
  ∀ o m, (agent_step o m).1.length = N ∧ (agent_step o m).2.length = C ∧
    ∀ ch ∈ (agent_step o m).2, ch.length = N

/-- A pool state over `N` slots, as established by the `EnvPool`
constructor: one environment and one previous observation per slot. -/
def poolWF {σ obs M : Type} (N : ℕ) (st : PoolState σ obs M) : Prop :=
  st.envs.length = N ∧ st.prev_observations.length = N

/-- Shape contract of one tick's log over `N` slots and `C` channels. -/
def tickWF {obs act info M : Type} (N C : ℕ) (lg : TickLog obs act info M) : Prop :=
  lg.obsL.length = N ∧ lg.actsL.length = N ∧ lg.rewardsL.length = N ∧
  lg.memL.length = C ∧ (∀ ch ∈ lg.memL, ch.length = N) ∧
  lg.doneL.length = N ∧ lg.infosL.length = N

/-- A concrete two-slot environment for closed instances: state `e` steps
to `e + 1` with observation `e + 10 + a`, reward `1`, and termination iff
`e = 0`; resetting jumps to state `100` with observation `42`. -/
def witEnv : EnvSpec ℕ ℕ ℕ ℕ :=
  ⟨fun e a => (e + 1, e + 10 + a, 1, decide (e = 0), 0), fun _ => (100, 42)⟩

/-- A concrete constant agent for closed instances: two slots, one memory
channel. -/
def witAgent : List ℕ → List (List ℕ) → List ℕ × List (List ℕ) :=
  fun _ _ => ([1, 1], [[1, 2]])

/-- A concrete two-slot pool state for closed instances; slot 0's
environment (state `0`) terminates on its next step. -/
def witState : PoolState ℕ ℕ ℕ := ⟨[0, 5], [7, 8], [[3, 4]]⟩

/-! ## Helper lemmas -/

lemma getD_of_lt {α : Type} (l : List α) (i : ℕ) (d : α) (h : i < l.length) :
    l.getD i d = l[i] := by
  rw [List.getD_eq_getElem?_getD, List.getElem?_eq_getElem h]
  rfl

lemma getD_mem_of_lt {α : Type} (l : List α) (i : ℕ) (d : α) (h : i < l.length) :
    l.getD i d ∈ l := by
  rw [getD_of_lt l i d h]
  exact List.getElem_mem h

lemma getD_map_of_lt {α β : Type} (f : α → β) (l : List α) (i : ℕ) (d : β)
    (d0 : α) (h : i < l.length) : (l.map f).getD i d = f (l.getD i d0) := by
  have h2 : i < (l.map f).length := by simpa using h
  rw [getD_of_lt _ i _ h2, getD_of_lt l i d0 h]
  simp

lemma getD_zipWith_of_lt {α β γ : Type} (f : α → β → γ) (a : List α)
    (b : List β) (i : ℕ) (d : γ) (d1 : α) (d2 : β)
    (h1 : i < a.length) (h2 : i < b.length) :
    (List.zipWith f a b).getD i d = f (a.getD i d1) (b.getD i d2) := by
  have h3 : i < (List.zipWith f a b).length := by
    rw [List.length_zipWith]
    omega
  rw [getD_of_lt _ i _ h3, getD_of_lt a i d1 h1, getD_of_lt b i d2 h2]
  simp

lemma getD_range_of_lt (n i : ℕ) (d : ℕ) (h : i < n) :
    (List.range n).getD i d = i := by
  rw [getD_of_lt _ i _ (by simpa using h)]
  simp

lemma length_transposeL {α : Type} (d : α) (n : ℕ) (rows : List (List α)) :
    (transposeL d n rows).length = n := by
  simp [transposeL]

lemma mem_transposeL_length {α : Type} (d : α) (n : ℕ) (rows : List (List α))
    (row : List α) (hrow : row ∈ transposeL d n rows) :
    row.length = rows.length := by
  simp only [transposeL, List.mem_map, List.mem_range] at hrow
  obtain ⟨s, _, hs⟩ := hrow
  rw [← hs]
  simp

lemma getD_transposeL {α : Type} (d : α) (n : ℕ) (rows : List (List α))
    (s t : ℕ) (d2 : α) (hs : s < n) (ht : t < rows.length) :
    ((transposeL d n rows).getD s []).getD t d2
      = (rows.getD t []).getD s d := by
  unfold transposeL
  rw [getD_map_of_lt _ _ s [] 0 (by simpa using hs), getD_range_of_lt n s 0 hs,
      getD_map_of_lt _ rows t d2 [] ht]

lemma end_tick_aux_no_death (alive : ℕ → ℕ → Bool) (s : ℕ) :
    ∀ fuel t, (∀ j, t < j → j ≤ t + fuel → alive s j = true) →
      end_tick_aux alive s t fuel = t + fuel := by
  intro fuel
  induction fuel with
  | zero => intro t _; rfl
  | succ n ih =>
      intro t h
      have h1 : alive s (t + 1) = true := h (t + 1) (by omega) (by omega)
      rw [end_tick_aux]
      simp only [h1, Bool.true_eq_false, if_false]
      rw [ih (t + 1) (fun j hj1 hj2 => h j (by omega) (by omega))]
      omega

lemma end_tick_aux_death (alive : ℕ → ℕ → Bool) (s : ℕ) :
    ∀ fuel t d, t ≤ d → d < t + fuel →
      (∀ j, t ≤ j → j < d → alive s (j + 1) = true) →
      alive s (d + 1) = false →
      end_tick_aux alive s t fuel = d := by
  intro fuel
  induction fuel with
  | zero => intro t d h1 h2 _ _; omega
  | succ n ih =>
      intro t d h1 h2 halive hdead
      rw [end_tick_aux]
      rcases Nat.eq_or_lt_of_le h1 with he | hlt
      · subst he
        simp [hdead]
      · have ht1 : alive s (t + 1) = true := halive t le_rfl hlt
        simp only [ht1, Bool.true_eq_false, if_false]
        exact ih (t + 1) d hlt (by omega) (fun j hj1 hj2 => halive j (by omega) hj2) hdead

lemma end_tick_all_alive (H : ℕ) (s : ℕ) :
    end_tick H (fun _ _ => true) s = H - 1 := by
  unfold end_tick
  simpa using end_tick_aux_no_death (fun _ _ => true) s (H - 1) 0 (fun j _ _ => rfl)

lemma interactTick_wf {σ obs act info M : Type} (E : EnvSpec σ obs act info)
    (z : M) (agent_step : List obs → List (List M) → List act × List (List M))
    (N C : ℕ) (hA : agentWF N C agent_step) (st : PoolState σ obs M)
    (hst : poolWF N st) :
    tickWF N C (interactTick E z agent_step st).1 ∧
    poolWF N (interactTick E z agent_step st).2 := by
  obtain ⟨henv, hobs⟩ := hst
  obtain ⟨hact, hmem, hch⟩ := hA st.prev_observations st.prev_memory_states
  have hres : (stepResults E st.envs
      (agent_step st.prev_observations st.prev_memory_states).1).length = N := by
    simp [stepResults, henv, hact]
  refine ⟨⟨hobs, hact, ?_, ?_, ?_, ?_, ?_⟩, ?_, ?_⟩
  · simpa [interactTick] using hres
  · simpa [interactTick] using hmem
  · intro ch hch2
    simp only [interactTick, List.mem_map] at hch2
    obtain ⟨ch0, hch0, hz⟩ := hch2
    rw [← hz]
    simp [zeroDoneMem, hres, hch ch0 hch0]
  · simpa [interactTick] using hres
  · simpa [interactTick] using hres
  · simpa [interactTick] using hres
  · simpa [interactTick] using hres

lemma interactLoop_wf {σ obs act info M : Type} (E : EnvSpec σ obs act info)
    (z : M) (agent_step : List obs → List (List M) → List act × List (List M))
    (N C : ℕ) (hA : agentWF N C agent_step) :
    ∀ (n : ℕ) (st : PoolState σ obs M), poolWF N st →
      (interactLoop E z agent_step n st).1.length = n ∧
      (∀ lg ∈ (interactLoop E z agent_step n st).1, tickWF N C lg) ∧
      poolWF N (interactLoop E z agent_step n st).2 := by
  intro n
  induction n with
  | zero =>
      intro st hst
      exact ⟨rfl, by simp [interactLoop], hst⟩
  | succ k ih =>
      intro st hst
      obtain ⟨htick, hst2⟩ := interactTick_wf E z agent_step N C hA st hst
      obtain ⟨hlen, hall, hfin⟩ := ih (interactTick E z agent_step st).2 hst2
      refine ⟨?_, ?_, ?_⟩
      · simp [interactLoop, hlen]
      · intro lg hlg
        simp only [interactLoop, List.mem_cons] at hlg
        rcases hlg with rfl | hlg
        · exact htick
        · exact hall lg hlg
      · simpa [interactLoop] using hfin

/-! ## Claims about the Q-learning objective -/

/-- C1: `get_reference_Qvalues` returns
`target[:, t] = rewards[:, t] + discount * aggregation(next_Qvalues[:, t, :])`
where `next_Qvalues[:, t, :] = Qvalues[:, t+1, :]` for `t < horizon - 1`,
and at `t = horizon - 1` it is `next_tick_values_override` if provided and
the all-zero action-value vector otherwise. -/
theorem get_reference_Qvalues_spec (H : ℕ) (Qvalues : ℕ → ℕ → ℕ → ℚ)
    (actions : ℕ → ℕ → ℕ) (rewards : ℕ → ℕ → ℚ) (gamma : ℕ → ℕ → ℚ)
    (qae : Option (ℕ → ℕ → ℚ)) (agg : (ℕ → ℚ) → ℚ) (s t : ℕ) :
    (t < H - 1 →
      get_reference_Qvalues H Qvalues actions rewards gamma qae agg s t
        = rewards s t + gamma s t * agg (fun a => Qvalues s (t + 1) a)) ∧
    get_reference_Qvalues H Qvalues actions rewards gamma qae agg s (H - 1)
        = rewards s (H - 1) + gamma s (H - 1)
            * agg (fun a => (qae.getD (fun _ _ => 0)) s a) := by
  constructor
  · intro ht
    unfold get_reference_Qvalues next_Qvalues_predicted
    simp [ht]
  · unfold get_reference_Qvalues next_Qvalues_predicted
    simp

/-- Witness for C1 at `H = 3`, `t = 1`: the bootstrap term reads
`Qvalues[:, 2, :]`. -/
theorem get_reference_Qvalues_spec_witness :
    (1 : ℕ) < 3 - 1 ∧
    get_reference_Qvalues 3 (fun s t a => (s : ℚ) + t + a) (fun _ _ => 0)
      (fun s t => (s : ℚ) + t) (fun _ _ => (1 : ℚ) / 2) none (fun v => v 1) 0 1
      = 1 + (1 / 2) * 3 := by
  refine ⟨by norm_num, ?_⟩
  rw [(get_reference_Qvalues_spec 3 (fun s t a => (s : ℚ) + t + a) (fun _ _ => 0)
      (fun s t => (s : ℚ) + t) (fun _ _ => (1 : ℚ) / 2) none (fun v => v 1) 0 1).1
      (by norm_num)]
  norm_num

/-- C10: the output of `get_reference_Qvalues` is independent of its
`actions` argument — chosen actions only influence the predicted side of
the objective, never the reference target. -/
theorem get_reference_Qvalues_ignores_actions (H : ℕ)
    (Qvalues : ℕ → ℕ → ℕ → ℚ) (a1 a2 : ℕ → ℕ → ℕ) (rewards : ℕ → ℕ → ℚ)
    (gamma : ℕ → ℕ → ℚ) (qae : Option (ℕ → ℕ → ℚ)) (agg : (ℕ → ℚ) → ℚ) :
    get_reference_Qvalues H Qvalues a1 rewards gamma qae agg
      = get_reference_Qvalues H Qvalues a2 rewards gamma qae agg := rfl

/-- C2: with an alive mask given, `force_qvalues_after_end = true` and
`qvalues_after_end = "zeros"`, the target used by
`get_elementwise_objective` equals exactly `rewards[slot, end_tick]` at
each slot's end tick (no bootstrap term); moreover, for a slot alive
through tick `k` and dead from tick `k+1` on, the end tick is `k`, so in
particular `target[slot, k] = rewards[slot, k]`. -/
theorem overridden_reference_end_zeros (H : ℕ) (Qvalues : ℕ → ℕ → ℕ → ℚ)
    (actions : ℕ → ℕ → ℕ) (rewards : ℕ → ℕ → ℚ) (gamma : ℕ → ℕ → ℚ)
    (agg : (ℕ → ℚ) → ℚ) (alive : ℕ → ℕ → Bool) (s k : ℕ) :
    overridden_reference H Qvalues actions rewards gamma none agg alive true s
        (end_tick H alive s) = rewards s (end_tick H alive s) ∧
    (k + 1 < H → (∀ t, alive s t = decide (t ≤ k)) →
      end_tick H alive s = k) := by
  constructor
  · unfold overridden_reference
    simp
  · intro hk halive
    unfold end_tick
    exact end_tick_aux_death alive s (H - 1) 0 k (Nat.zero_le k) (by omega)
      (fun j _ hj => by rw [halive]; simp; omega)
      (by rw [halive]; simp)

/-- Witness for C2: horizon 4, a single slot alive through tick 1; the end
tick is 1 and the target there is `rewards[0, 1] = 1`. -/
theorem overridden_reference_end_zeros_witness :
    (1 : ℕ) + 1 < 4 ∧
    end_tick 4 (fun _ t => decide (t ≤ 1)) 0 = 1 ∧
    overridden_reference 4 (fun _ _ _ => (2 : ℚ)) (fun _ _ => 0)
      (fun _ t => (t : ℚ)) (fun _ _ => (9 : ℚ) / 10) none (fun v => v 0)
      (fun _ t => decide (t ≤ 1)) true 0
      (end_tick 4 (fun _ t => decide (t ≤ 1)) 0) = 1 := by
  have h := overridden_reference_end_zeros 4 (fun _ _ _ => (2 : ℚ)) (fun _ _ => 0)
    (fun _ t => (t : ℚ)) (fun _ _ => (9 : ℚ) / 10) (fun v => v 0)
    (fun _ t => decide (t ≤ 1)) 0 1
  have hend := h.2 (by norm_num) (fun t => rfl)
  refine ⟨by norm_num, hend, ?_⟩
  rw [h.1, hend]
  norm_num

/-- C9: with an alive mask given, `force_qvalues_after_end = true` and a
tensor `qvalues_after_end`, the target used by `get_elementwise_objective`
at each slot's end tick is
`rewards[slot, end_tick] + discount * aggregation(qvalues_after_end[slot])`. -/
theorem overridden_reference_end_tensor (H : ℕ) (Qvalues : ℕ → ℕ → ℕ → ℚ)
    (actions : ℕ → ℕ → ℕ) (rewards : ℕ → ℕ → ℚ) (gamma : ℕ → ℕ → ℚ)
    (q : ℕ → ℕ → ℚ) (agg : (ℕ → ℚ) → ℚ) (alive : ℕ → ℕ → Bool) (s : ℕ) :
    overridden_reference H Qvalues actions rewards gamma (some q) agg alive true s
        (end_tick H alive s)
      = rewards s (end_tick H alive s)
        + gamma s (end_tick H alive s) * agg (fun a => q s a) := by
  unfold overridden_reference
  simp

/-- C3: with `crop_last = true`, the loss returned by
`get_elementwise_objective` is exactly `0` at the last tick of every slot,
for any inputs and any settings of the remaining flags. -/
theorem get_elementwise_objective_crop_last (H : ℕ) (Qvalues : ℕ → ℕ → ℕ → ℚ)
    (actions : ℕ → ℕ → ℕ) (rewards : ℕ → ℕ → ℚ)
    (is_alive : Option (ℕ → ℕ → Bool)) (Qt : Option (ℕ → ℕ → ℕ → ℚ))
    (gamma : ℕ → ℕ → ℚ) (force cc : Bool) (qae : Option (ℕ → ℕ → ℚ))
    (agg : (ℕ → ℚ) → ℚ) (s : ℕ) :
    get_elementwise_objective H Qvalues actions rewards is_alive Qt gamma
      true force qae cc agg s (H - 1) = 0 := by
  unfold get_elementwise_objective
  cases is_alive <;> simp

/-- C7: `get_elementwise_objective` called with an all-ones alive mask
agrees with the `is_alive = "always"` branch on the same inputs at every
position except possibly the last tick. -/
theorem get_elementwise_objective_all_alive (H : ℕ) (Qvalues : ℕ → ℕ → ℕ → ℚ)
    (actions : ℕ → ℕ → ℕ) (rewards : ℕ → ℕ → ℚ)
    (Qt : Option (ℕ → ℕ → ℕ → ℚ)) (gamma : ℕ → ℕ → ℚ)
    (crop force cc : Bool) (qae : Option (ℕ → ℕ → ℚ)) (agg : (ℕ → ℚ) → ℚ)
    (s t : ℕ) (ht : t ≠ H - 1) :
    get_elementwise_objective H Qvalues actions rewards (some (fun _ _ => true))
        Qt gamma crop force qae cc agg s t
      = get_elementwise_objective H Qvalues actions rewards none
        Qt gamma crop force qae cc agg s t := by
  have hend := end_tick_all_alive H s
  unfold get_elementwise_objective overridden_reference
  cases crop <;> cases force <;> cases cc <;>
    simp [consider_constant, hend, ht]

/-- Witness for C7 at `H = 2`, `t = 0`. -/
theorem get_elementwise_objective_all_alive_witness :
    (0 : ℕ) ≠ 2 - 1 ∧
    get_elementwise_objective 2 (fun _ _ a => (a : ℚ)) (fun _ _ => 1)
        (fun _ _ => (3 : ℚ)) (some (fun _ _ => true)) none (fun _ _ => (1 : ℚ) / 2)
        true true none true (fun v => v 0) 0 0
      = get_elementwise_objective 2 (fun _ _ a => (a : ℚ)) (fun _ _ => 1)
        (fun _ _ => (3 : ℚ)) none none (fun _ _ => (1 : ℚ) / 2)
        true true none true (fun v => v 0) 0 0 :=
  ⟨by decide,
   get_elementwise_objective_all_alive 2 (fun _ _ a => (a : ℚ)) (fun _ _ => 1)
     (fun _ _ => (3 : ℚ)) none (fun _ _ => (1 : ℚ) / 2) true true true none
     (fun v => v 0) 0 0 (by decide)⟩

/-! ## Claims about the environment pool -/

/-- C6: for every horizon `H` and slot count `N`, the tensors returned by
`EnvPool.interact` — observations, actions, rewards, each memory-channel
snapshot, and the alive mask — have leading two axes exactly `[N, H]`,
while `info_log` stays time-major with shape `[H][N]` (and the number of
memory-channel snapshots is the agent's channel count `C` whenever at
least one tick was collected). -/
theorem interact_shapes {σ obs act info M : Type} [Inhabited obs]
    [Inhabited act] [Inhabited info] (E : EnvSpec σ obs act info) (z : M)
    (agent_step : List obs → List (List M) → List act × List (List M))
    (H N C : ℕ) (hA : agentWF N C agent_step) (st : PoolState σ obs M)
    (hst : poolWF N st) :
    ((interact E z agent_step H st).1.observation_log.length = N ∧
      ∀ row ∈ (interact E z agent_step H st).1.observation_log, row.length = H) ∧
    ((interact E z agent_step H st).1.action_log.length = N ∧
      ∀ row ∈ (interact E z agent_step H st).1.action_log, row.length = H) ∧
    ((interact E z agent_step H st).1.reward_log.length = N ∧
      ∀ row ∈ (interact E z agent_step H st).1.reward_log, row.length = H) ∧
    ((0 < H → (interact E z agent_step H st).1.memories_log.length = C) ∧
      ∀ chT ∈ (interact E z agent_step H st).1.memories_log,
        chT.length = N ∧ ∀ row ∈ chT, row.length = H) ∧
    ((interact E z agent_step H st).1.is_alive_log.length = N ∧
      ∀ row ∈ (interact E z agent_step H st).1.is_alive_log, row.length = H) ∧
    ((interact E z agent_step H st).1.info_log.length = H ∧
      ∀ row ∈ (interact E z agent_step H st).1.info_log, row.length = N) := by
  obtain ⟨hlen, hall, _⟩ := interactLoop_wf E z agent_step N C hA H st hst
  have hN := hst.1
  refine ⟨⟨?_, ?_⟩, ⟨?_, ?_⟩, ⟨?_, ?_⟩, ⟨?_, ?_⟩, ⟨?_, ?_⟩, ?_, ?_⟩
  · simp [interact, length_transposeL, hN]
  · intro row hrow
    simp only [interact] at hrow
    rw [mem_transposeL_length _ _ _ row hrow]
    simp [hlen]
  · simp [interact, length_transposeL, hN]
  · intro row hrow
    simp only [interact] at hrow
    rw [mem_transposeL_length _ _ _ row hrow]
    simp [hlen]
  · simp [interact, length_transposeL, hN]
  · intro row hrow
    simp only [interact] at hrow
    rw [mem_transposeL_length _ _ _ row hrow]
    simp [hlen]
  · intro hH
    rcases hlogs : (interactLoop E z agent_step H st).1 with _ | ⟨lg0, rest⟩
    · rw [hlogs] at hlen
      simp at hlen
      omega
    · have hlg0 : tickWF N C lg0 := by
        rw [hlogs] at hall
        exact hall lg0 (List.mem_cons_self lg0 rest)
      simp [interact, hlogs, hlg0.2.2.2.1]
  · intro chT hchT
    simp only [interact, List.mem_map, List.mem_range] at hchT
    obtain ⟨c, _, hc⟩ := hchT
    constructor
    · rw [← hc, length_transposeL, hN]
    · intro row hrow
      rw [← hc] at hrow
      rw [mem_transposeL_length _ _ _ row hrow]
      simp [hlen]
  · simp [interact, length_transposeL, hN]
  · intro row hrow
    simp only [interact] at hrow
    rw [mem_transposeL_length _ _ _ row hrow]
    simp [hlen]
  · simp [interact, hlen]
  · intro row hrow
    simp only [interact, List.mem_map] at hrow
    obtain ⟨lg, hlg, hrow2⟩ := hrow
    rw [← hrow2]
    exact (hall lg hlg).2.2.2.2.2.2

/-- Witness for C6: the concrete two-slot pool run for two ticks has
`[2, 2]`-shaped logs, one memory-channel snapshot, and a `[2][2]` time-major
`info_log`. -/
theorem interact_shapes_witness :
    agentWF 2 1 witAgent ∧ poolWF 2 witState ∧
    (interact witEnv 0 witAgent 2 witState).1.observation_log.length = 2 ∧
    (∀ row ∈ (interact witEnv 0 witAgent 2 witState).1.observation_log,
      row.length = 2) ∧
    (interact witEnv 0 witAgent 2 witState).1.memories_log.length = 1 ∧
    (interact witEnv 0 witAgent 2 witState).1.info_log.length = 2 ∧
    ∀ row ∈ (interact witEnv 0 witAgent 2 witState).1.info_log,
      row.length = 2 := by
  have hA : agentWF 2 1 witAgent := by
    intro o m
    refine ⟨rfl, rfl, ?_⟩
    intro ch hch
    simp only [witAgent, List.mem_singleton] at hch
    rw [hch]
    rfl
  have hst : poolWF 2 witState := ⟨rfl, rfl⟩
  have h := interact_shapes witEnv 0 witAgent 2 2 1 hA witState hst
  exact ⟨hA, hst, h.1.1, h.1.2, h.2.2.2.1.1 (by norm_num), h.2.2.2.2.2.1,
    h.2.2.2.2.2.2⟩

/-- C4: the alive mask returned by `EnvPool.interact` is, at every
in-range `[slot, tick]` position, the logical complement of the
`terminated` flag the slot's environment reported during that tick:
`0` exactly at the tick where `terminated` was observed, `1` wherever it
was false. -/
theorem interact_alive_mask {σ obs act info M : Type} [Inhabited obs]
    [Inhabited act] [Inhabited info] (E : EnvSpec σ obs act info) (z : M)
    (agent_step : List obs → List (List M) → List act × List (List M))
    (H N C : ℕ) (hA : agentWF N C agent_step) (st : PoolState σ obs M)
    (hst : poolWF N st) (s t : ℕ) (hs : s < N) (ht : t < H) :
    (((interact E z agent_step H st).1.is_alive_log.getD s []).getD t 0 : ℤ)
      = if ((interactLoop E z agent_step H st).1.getD t
            ⟨[], [], [], [], [], []⟩).doneL.getD s false then 0 else 1 := by
  obtain ⟨hlen, hall, _⟩ := interactLoop_wf E z agent_step N C hA H st hst
  have h1 : (interact E z agent_step H st).1.is_alive_log
      = transposeL 0 st.envs.length
          ((interactLoop E z agent_step H st).1.map
            (fun lg => lg.doneL.map (fun d => 1 - (if d then (1 : ℤ) else 0)))) := rfl
  rw [h1, hst.1]
  rw [getD_transposeL 0 N _ s t 0 hs (by simp [hlen, ht])]
  rw [getD_map_of_lt _ _ t [] ⟨[], [], [], [], [], []⟩ (by simp [hlen, ht])]
  have hmemt := getD_mem_of_lt (interactLoop E z agent_step H st).1 t
    ⟨[], [], [], [], [], []⟩ (by simp [hlen, ht])
  have hdlen : ((interactLoop E z agent_step H st).1.getD t
      ⟨[], [], [], [], [], []⟩).doneL.length = N := (hall _ hmemt).2.2.2.2.2.1
  rw [getD_map_of_lt _ _ s 0 false (by rw [hdlen]; exact hs)]
  cases ((interactLoop E z agent_step H st).1.getD t
      ⟨[], [], [], [], [], []⟩).doneL.getD s false <;> simp

/-- Witness for C4: in the concrete two-slot pool, slot 0 terminates on
tick 0, so its alive-mask entry for tick 0 is `0` while the observed
`terminated` flag is `true`. -/
theorem interact_alive_mask_witness :
    (0 : ℕ) < 2 ∧
    ((interactLoop witEnv 0 witAgent 2 witState).1.getD 0
        ⟨[], [], [], [], [], []⟩).doneL.getD 0 false = true ∧
    (((interact witEnv 0 witAgent 2 witState).1.is_alive_log.getD 0 []).getD 0 0 : ℤ)
      = 0 := by
  have hA : agentWF 2 1 witAgent := by
    intro o m
    refine ⟨rfl, rfl, ?_⟩
    intro ch hch
    simp only [witAgent, List.mem_singleton] at hch
    rw [hch]
    rfl
  have h := interact_alive_mask witEnv 0 witAgent 2 2 1 hA witState ⟨rfl, rfl⟩ 0 0
    (by norm_num) (by norm_num)
  have hdone : ((interactLoop witEnv 0 witAgent 2 witState).1.getD 0
      ⟨[], [], [], [], [], []⟩).doneL.getD 0 false = true := by decide
  refine ⟨by norm_num, hdone, ?_⟩
  rw [h, hdone]
  simp

/-- C5: during one interaction tick, a slot `i` whose `terminated` flag is
true gets a fresh reset observation of its own (just stepped) environment
as its next-tick input — not the raw post-termination step observation —
and every memory channel's row `i` is zeroed, while the memory rows of any
other, non-terminated slot `j` are exactly the agent's returned memory
rows, untouched by the reset handling. -/
theorem interactTick_reset {σ obs act info M : Type} [Inhabited σ]
    [Inhabited obs] [Inhabited act] [Inhabited info]
    (E : EnvSpec σ obs act info) (z : M)
    (agent_step : List obs → List (List M) → List act × List (List M))
    (N C : ℕ) (hA : agentWF N C agent_step) (st : PoolState σ obs M)
    (hst : poolWF N st) (i : ℕ) (hi : i < N)
    (hdone : ((stepResults E st.envs
        (agent_step st.prev_observations st.prev_memory_states).1).getD i
        default).2.2.2.1 = true) :
    (interactTick E z agent_step st).2.prev_observations.getD i default
      = (E.resetf ((stepResults E st.envs
          (agent_step st.prev_observations st.prev_memory_states).1).getD i
          default).1).2 ∧
    (∀ c, c < C →
      ((interactTick E z agent_step st).2.prev_memory_states.getD c []).getD i z
        = z) ∧
    (∀ j, j < N → j ≠ i →
      ((stepResults E st.envs
          (agent_step st.prev_observations st.prev_memory_states).1).getD j
          default).2.2.2.1 = false →
      ∀ c, c < C →
        ((interactTick E z agent_step st).2.prev_memory_states.getD c []).getD j z
          = ((agent_step st.prev_observations st.prev_memory_states).2.getD c
              []).getD j z) := by
  obtain ⟨hact, hmem, hch⟩ := hA st.prev_observations st.prev_memory_states
  have hres : (stepResults E st.envs
      (agent_step st.prev_observations st.prev_memory_states).1).length = N := by
    simp [stepResults, hst.1, hact]
  have hobs2 : (interactTick E z agent_step st).2.prev_observations
      = ((stepResults E st.envs
          (agent_step st.prev_observations st.prev_memory_states).1).map
          (fixSlot E)).map Prod.snd := rfl
  have hmem2 : (interactTick E z agent_step st).2.prev_memory_states
      = (agent_step st.prev_observations st.prev_memory_states).2.map
          (zeroDoneMem z ((stepResults E st.envs
            (agent_step st.prev_observations st.prev_memory_states).1).map
            (fun r => r.2.2.2.1))) := rfl
  refine ⟨?_, ?_, ?_⟩
  · rw [hobs2]
    rw [getD_map_of_lt Prod.snd _ i default default (by simp [hres, hi])]
    rw [getD_map_of_lt (fixSlot E) _ i default default (by rw [hres]; exact hi)]
    unfold fixSlot
    rw [if_pos hdone]
  · intro c hc
    rw [hmem2]
    rw [getD_map_of_lt _ _ c [] [] (by rw [hmem]; exact hc)]
    have hchlen : ((agent_step st.prev_observations st.prev_memory_states).2.getD
        c []).length = N :=
      hch _ (getD_mem_of_lt _ c [] (by rw [hmem]; exact hc))
    unfold zeroDoneMem
    rw [getD_zipWith_of_lt _ _ _ i z false z (by simp [hres, hi])
        (by rw [hchlen]; exact hi)]
    rw [getD_map_of_lt _ _ i false default (by rw [hres]; exact hi)]
    simp only [hdone]
    simp
  · intro j hj hji hfalse c hc
    rw [hmem2]
    rw [getD_map_of_lt _ _ c [] [] (by rw [hmem]; exact hc)]
    have hchlen : ((agent_step st.prev_observations st.prev_memory_states).2.getD
        c []).length = N :=
      hch _ (getD_mem_of_lt _ c [] (by rw [hmem]; exact hc))
    unfold zeroDoneMem
    rw [getD_zipWith_of_lt _ _ _ j z false z (by simp [hres, hj])
        (by rw [hchlen]; exact hj)]
    rw [getD_map_of_lt _ _ j false default (by rw [hres]; exact hj)]
    simp only [hfalse]
    simp

/-- Witness for C5: in the concrete two-slot pool, slot 0 terminates on
the first tick; its next observation is the fresh reset observation `42`,
its memory row becomes `0`, and slot 1's memory row stays the agent's
returned value `2`. -/
theorem interactTick_reset_witness :
    ((stepResults witEnv witState.envs
        (witAgent witState.prev_observations witState.prev_memory_states).1).getD 0
        default).2.2.2.1 = true ∧
    (interactTick witEnv 0 witAgent witState).2.prev_observations.getD 0 default
      = 42 ∧
    ((interactTick witEnv 0 witAgent witState).2.prev_memory_states.getD 0
        []).getD 0 0 = 0 ∧
    ((interactTick witEnv 0 witAgent witState).2.prev_memory_states.getD 0
        []).getD 1 0 = 2 := by
  have hA : agentWF 2 1 witAgent := by
    intro o m
    refine ⟨rfl, rfl, ?_⟩
    intro ch hch
    simp only [witAgent, List.mem_singleton] at hch
    rw [hch]
    rfl
  have h := interactTick_reset witEnv 0 witAgent 2 1 hA witState ⟨rfl, rfl⟩ 0
    (by norm_num) (by decide)
  refine ⟨by decide, ?_, h.2.1 0 (by norm_num), ?_⟩
  · rw [h.1]
    decide
  · rw [h.2.2 1 (by norm_num) (by norm_num) (by decide) 0 (by norm_num)]
    decide

end AgentNet
